import Mathlib

/-!
# Verification of `tools/generate-camping-caravan.mjs`

Shallow embedding of the pure core of the camping-caravan SVG generator:
quantile-based threshold construction, level classification, XML escaping,
the snake ("boustrophedon") path over the contribution grid, and the
per-cell fill selection of the renderer. Machine numbers are modelled as
`ℤ`/`ℚ` (the script only ever manipulates small exact values: integer
counts, quarters and tenths, so IEEE doubles behave exactly like `ℚ` on
every computation below); a possibly-absent JavaScript value is modelled
as an `Option`.
-/

namespace CampingCaravan

/-! ## Data model -/

/-- A day record of the contribution calendar. `contributionCount` is
`none` when the field is absent or not a number (the script checks
`typeof d.contributionCount === "number"`). -/
structure Day where
  date : List Char
  contributionCount : Option ℤ
deriving DecidableEq, Repr

/-- A week: up to 7 day slots; a slot is `none` when `days[y]` is
`undefined`/`null` (missing entry or short week). -/
structure Week where
  contributionDays : List (Option Day)
deriving DecidableEq, Repr

/-- The four cut points produced by `buildThresholds`. -/
structure Thresholds where
  t0 : ℤ
  t1 : ℤ
  t2 : ℤ
  t3 : ℤ
deriving DecidableEq, Repr

/-- A point of the animated trail: pixel coordinates plus the grid cell
`(x, y)` it was derived from, exactly the object pushed by the source
(`{ px, py, x, y }`). -/
structure TrailPoint where
  px : ℚ
  py : ℚ
  x : ℕ
  y : ℕ
deriving DecidableEq, Repr

/-! ## Threshold builder (`quantile`, `buildThresholds`) -/

/-- Embeds `quantile(sorted, q)`: R-7 style linear interpolation,
`pos = (sorted.length - 1) * q`, `base = Math.floor(pos)`,
`rest = pos - base`; when `sorted[base + 1]` is `undefined` the order
statistic `sorted[base]` is returned as is. -/
def quantile (sorted : List ℚ) (q : ℚ) : ℚ :=
  let pos : ℚ := ((sorted.length : ℚ) - 1) * q
  let base : ℕ := (⌊pos⌋).toNat
  let rest : ℚ := pos - (base : ℚ)
  match sorted[base + 1]? with
  | none => sorted.getD base 0
  | some nxt => sorted.getD base 0 + rest * (nxt - sorted.getD base 0)

/-- `Math.round` on the (non-negative) values the script rounds:
round half up, `⌊x + 1/2⌋`. -/
def jsRound (x : ℚ) : ℤ := ⌊x + 1 / 2⌋

/-- Embeds `buildThresholds(counts)`: keep the strictly positive counts,
sort ascending, take the 25/50/75/90 percentiles, round, and bump each
threshold above the previous one; `[0, 1, 2, 3]` when no positive count
exists. -/
def buildThresholds (counts : List ℤ) : Thresholds :=
  let nz : List ℤ := (counts.filter (fun c => 0 < c)).insertionSort (· ≤ ·)
  if nz.length = 0 then ⟨0, 1, 2, 3⟩ else
    let nzq : List ℚ := nz.map (fun (c : ℤ) => (c : ℚ))
    let q1 : ℤ := max 1 (jsRound (quantile nzq (1 / 4)))
    let q2 : ℤ := max (q1 + 1) (jsRound (quantile nzq (1 / 2)))
    let q3 : ℤ := max (q2 + 1) (jsRound (quantile nzq (3 / 4)))
    let q4 : ℤ := max (q3 + 1) (jsRound (quantile nzq (9 / 10)))
    ⟨q1, q2, q3, q4⟩

/-! ## Level classification (`levelFor`) -/

/-- JavaScript `a <= b` where `a` may be `undefined`: every comparison
against a non-number is false. -/
def jsLE : Option ℤ → ℤ → Bool
  | none, _ => false
  | some a, b => decide (a ≤ b)

/-- Embeds `levelFor(count, t)`: the guard cascade
`count <= 0 → 0`, `count <= t[0] → 1`, `count <= t[1] → 2`,
`count <= t[2] → 3`, else `4`. -/
def levelFor (count : Option ℤ) (t : Thresholds) : ℕ :=
  if jsLE count 0 then 0
  else if jsLE count t.t0 then 1
  else if jsLE count t.t1 then 2
  else if jsLE count t.t2 then 3
  else 4

/-! ## XML escaping (`escapeXml`) -/

/-- `String.replaceAll` for a single-character search string: every
occurrence of the character (occurrences are exactly its positions,
non-overlapping) is replaced by `rep`. -/
def replaceAllChar (target : Char) (rep : List Char) (s : List Char) : List Char :=
  s.flatMap (fun c => if c = target then rep else [c])

/-- Embeds `escapeXml(s)`: the five `replaceAll` passes in source order,
`&` first, then `<`, `>`, `"`, `'`. -/
def escapeXml (s : List Char) : List Char :=
  replaceAllChar (Char.ofNat 39) "&apos;".toList
    (replaceAllChar (Char.ofNat 34) "&quot;".toList
      (replaceAllChar (Char.ofNat 62) "&gt;".toList
        (replaceAllChar (Char.ofNat 60) "&lt;".toList
          (replaceAllChar (Char.ofNat 38) "&amp;".toList s))))

/-- Per-character escaping as the spec describes it: each of the five
characters replaced independently by its entity, all other characters
unchanged. (Spec-side definition, compared with `escapeXml`.) -/
def escCharSpec (c : Char) : List Char :=
  if c = Char.ofNat 38 then "&amp;".toList
  else if c = Char.ofNat 60 then "&lt;".toList
  else if c = Char.ofNat 62 then "&gt;".toList
  else if c = Char.ofNat 34 then "&quot;".toList
  else if c = Char.ofNat 39 then "&apos;".toList
  else [c]

/-- Spec-side escaping: independent single-pass substitution. -/
def escapeXmlSpec (s : List Char) : List Char :=
  s.flatMap escCharSpec

/-! ## Renderer: counts collection and cell fills -/

/-- The theme palette (the fields of the objects in `palettes`). -/
structure Palette where
  bg : String
  grid0 : String
  grid1 : String
  grid2 : String
  grid3 : String
  grid4 : String
  text : String
  path : String
  dash : String
  dashGlow : String
  hiker : String
  tent : String
  tentFill : String
  fire1 : String
  fire2 : String
  smoke : String
deriving DecidableEq, Repr

/-- The `dark` palette literal. -/
def darkPalette : Palette :=
  ⟨"#0d1117", "#161b22", "#0e4429", "#006d32", "#26a641", "#39d353",
   "#c9d1d9", "rgba(255,255,255,0.10)", "rgba(57,211,83,0.55)",
   "rgba(57,211,83,0.25)", "#c9d1d9", "#c9d1d9", "rgba(31,111,235,0.35)",
   "#ffb74d", "#ff7043", "rgba(255,255,255,0.55)"⟩

/-- The `light` palette literal. -/
def lightPalette : Palette :=
  ⟨"#ffffff", "#ebedf0", "#9be9a8", "#40c463", "#30a14e", "#216e39",
   "#24292f", "rgba(0,0,0,0.10)", "rgba(48,161,78,0.55)",
   "rgba(48,161,78,0.20)", "#24292f", "#24292f", "rgba(9,105,218,0.22)",
   "#ff9800", "#ff5722", "rgba(0,0,0,0.35)"⟩

/-- Embeds the counts-collection loop: for each week, push
`d.contributionCount` exactly when the day is present and the field is a
number. -/
def collectCounts (weeks : List Week) : List ℤ :=
  weeks.flatMap (fun w =>
    w.contributionDays.filterMap (fun od => od.bind (fun d => d.contributionCount)))

/-- The five-step fill ramp `[grid0, grid1, grid2, grid3, grid4][lvl]`. -/
def fillRamp (p : Palette) : List String :=
  [p.grid0, p.grid1, p.grid2, p.grid3, p.grid4]

/-- Embeds the per-cell fill choice of the grid loop: `day = days[y]`;
when `!day` the placeholder `grid0` rectangle is emitted, otherwise the
fill at `levelFor(day.contributionCount, thresholds)`. -/
def cellFill (p : Palette) (t : Thresholds) (days : List (Option Day)) (y : ℕ) : String :=
  match days[y]? with
  | none => p.grid0
  | some none => p.grid0
  | some (some day) => (fillRamp p).getD (levelFor day.contributionCount t) p.grid0

/-- The fills of one rendered week column: the inner loop always runs
`y = 0 .. 6`, one rectangle per iteration. -/
def columnFills (p : Palette) (t : Thresholds) (days : List (Option Day)) : List String :=
  (List.range 7).map (cellFill p t days)

/-! ## Snake path -/

/-- Sizing constants of `svgForTheme`. -/
def cellSize : ℚ := 12

/-- Gap between cells. -/
def gapSize : ℚ := 3

/-- Outer padding. -/
def padSize : ℚ := 18

/-- The point pushed for cell `(x, y)`:
`px = pad + x*(cell+gap) + cell/2`, `py` likewise. -/
def mkTrailPoint (x y : ℕ) : TrailPoint :=
  ⟨padSize + x * (cellSize + gapSize) + cellSize / 2,
   padSize + y * (cellSize + gapSize) + cellSize / 2, x, y⟩

/-- The row order of column `x`: `[0,1,2,3,4,5,6]` for even `x`,
`[6,5,4,3,2,1,0]` for odd `x`. -/
def snakeYs (x : ℕ) : List ℕ :=
  if x % 2 = 0 then [0, 1, 2, 3, 4, 5, 6] else [6, 5, 4, 3, 2, 1, 0]

/-- The trail points of column `x`, in visiting order. -/
def snakeCol (x : ℕ) : List TrailPoint :=
  (snakeYs x).map (mkTrailPoint x)

/-- Embeds the path loop: columns `x = 0 .. W-1` left to right, each
contributing `snakeCol x`. -/
def snakePoints (W : ℕ) : List TrailPoint :=
  (List.range W).flatMap snakeCol

/-- One step of the trail moves by exactly one row or exactly one column,
never both. -/
def adjStep (p q : TrailPoint) : Prop :=
  (p.x = q.x ∧ (p.y + 1 = q.y ∨ q.y + 1 = p.y)) ∨
    (p.y = q.y ∧ (p.x + 1 = q.x ∨ q.x + 1 = p.x))

instance : DecidablePred fun pq : TrailPoint × TrailPoint => adjStep pq.1 pq.2 := by
  intro pq
  unfold adjStep
  infer_instance

/-! ## Helper lemmas -/

/-- `levelFor` is monotone in the count for every threshold tuple: a
larger count can only satisfy a later guard of the cascade. -/
theorem levelFor_mono (t : Thresholds) (c₁ c₂ : ℤ) (h : c₁ ≤ c₂) :
    levelFor (some c₁) t ≤ levelFor (some c₂) t := by
  simp only [levelFor, jsLE, decide_eq_true_eq]
  split_ifs <;> omega

/-! ## C1: fallback thresholds on empty or all-zero input -/

/-- C1 counterexample: on an all-zero input `buildThresholds` returns the
fallback `[0, 1, 2, 3]`, not `{1, 2, 3, 4}`, and its first entry is not
positive. -/
theorem c1_counterexample :
    buildThresholds [0, 0, 0] = ⟨0, 1, 2, 3⟩ ∧
      buildThresholds [0, 0, 0] ≠ ⟨1, 2, 3, 4⟩ ∧
        ¬ 0 < (buildThresholds [0, 0, 0]).t0 := by
  refine ⟨by decide, by decide, by decide⟩

/-- C1 (amended): for every input collection of daily counts that is
empty or contains only zeros, `buildThresholds` returns the fixed
fallback `[0, 1, 2, 3]`, a 4-tuple of strictly increasing non-negative
integers whose first entry is `0`. -/
theorem c1_all_zero_fallback (counts : List ℤ) (h : ∀ c ∈ counts, c = 0) :
    buildThresholds counts = ⟨0, 1, 2, 3⟩ := by
  have hf : counts.filter (fun c => 0 < c) = [] := by
    refine List.filter_eq_nil_iff.mpr fun c hc => ?_
    simp [h c hc]
  simp [buildThresholds, hf]

/-- C1 witness: the amended statement applied to the empty input. -/
theorem c1_witness :
    (∀ c ∈ ([] : List ℤ), c = 0) ∧ buildThresholds [] = ⟨0, 1, 2, 3⟩ :=
  ⟨by decide, c1_all_zero_fallback [] (by decide)⟩

/-! ## C2: degenerate grid (W = 0) -/

/-- C2 counterexample: for `W = 0` the path loop produces no point at
all, so no fixed 4-point fallback loop (nor any path of at least 2
points) is returned. -/
theorem c2_counterexample :
    (snakePoints 0).length = 0 ∧ ¬ 2 ≤ (snakePoints 0).length :=
  ⟨rfl, by decide⟩

/-- C2 (amended): for a grid with fewer than 2 points total (`W = 0`)
the path builder returns the empty path — no fallback loop is
substituted — and the final-point lookup used for the tent placement
yields nothing. -/
theorem c2_empty_grid_path :
    snakePoints 0 = [] ∧ (snakePoints 0).length < 2 ∧
      (snakePoints 0).getLast? = none :=
  ⟨rfl, by decide, rfl⟩

/-- The quantile of a non-empty constant list is that constant, for any
`q` between 0 and 1: both the base and the next order statistic equal the
constant, so the interpolation collapses. -/
theorem quantile_const (l : List ℚ) (v q : ℚ) (hne : l ≠ [])
    (hall : ∀ x ∈ l, x = v) (h0 : 0 ≤ q) (h1 : q ≤ 1) : quantile l q = v := by
  have hlen : 1 ≤ l.length := List.length_pos.mpr hne
  have hlen' : (1 : ℚ) ≤ (l.length : ℚ) := by exact_mod_cast hlen
  have hpos0 : 0 ≤ ((l.length : ℚ) - 1) * q := mul_nonneg (by linarith) h0
  have hposle : ((l.length : ℚ) - 1) * q ≤ (l.length : ℚ) - 1 := by nlinarith
  have hfl0 : 0 ≤ ⌊((l.length : ℚ) - 1) * q⌋ := Int.floor_nonneg.mpr hpos0
  have hcast : ⌊((l.length : ℚ) - 1)⌋ = (l.length : ℤ) - 1 := by
    have h'' : ((l.length : ℚ) - 1) = (((l.length : ℤ) - 1 : ℤ) : ℚ) := by push_cast; ring
    rw [h'', Int.floor_intCast]
  have hfl : ⌊((l.length : ℚ) - 1) * q⌋ ≤ (l.length : ℤ) - 1 :=
    (Int.floor_mono hposle).trans_eq hcast
  have hbase : (⌊((l.length : ℚ) - 1) * q⌋).toNat < l.length := by omega
  have hgetD : l.getD (⌊((l.length : ℚ) - 1) * q⌋).toNat 0 = v := by
    rw [List.getD_eq_getElem l 0 hbase]
    exact hall _ (List.getElem_mem hbase)
  simp only [quantile]
  split
  · exact hgetD
  · rename_i nxt hnext
    have hmem : nxt ∈ l := by
      obtain ⟨hlt, h''⟩ := List.getElem?_eq_some_iff.mp hnext
      exact h'' ▸ List.getElem_mem hlt
    rw [hgetD, hall _ hmem]
    ring

/-- `Math.round` of an integer value is that value. -/
theorem jsRound_intCast (v : ℤ) : jsRound (v : ℚ) = v := by
  unfold jsRound
  rw [Int.floor_int_add]
  norm_num

/-! ## C3: the single-week scenario [0,1,2,5,10,10,10] -/

/-- Evaluation of `buildThresholds` on the C3 scenario: the R-7
percentiles of `[1,2,5,10,10,10]` are 2.75, 7.5, 10, 10, giving rounded
and bumped thresholds `(3, 8, 10, 11)`. -/
theorem c3_thresholds_eval :
    buildThresholds [0, 1, 2, 5, 10, 10, 10] = ⟨3, 8, 10, 11⟩ := by
  have h2 : Int.toNat 2 = 2 := rfl
  have h3 : Int.toNat 3 = 3 := rfl
  have h4 : Int.toNat 4 = 4 := rfl
  norm_num [buildThresholds, quantile, jsRound, List.insertionSort,
    List.orderedInsert, h2, h3, h4]

/-- C3 counterexample: in the single-week scenario the day with count 10
is classified at level 3, not at the maximum level 4 (the 75th-percentile
threshold is exactly 10 and the guard is `count ≤ t2`). -/
theorem c3_counterexample :
    levelFor (some 10) (buildThresholds [0, 1, 2, 5, 10, 10, 10]) = 3 ∧
      levelFor (some 10) (buildThresholds [0, 1, 2, 5, 10, 10, 10]) ≠ 4 := by
  rw [c3_thresholds_eval]
  exact ⟨by decide, by decide⟩

/-- C3 (amended): for the single week with counts [0,1,2,5,10,10,10] the
thresholds are computed from the non-zero multiset {1,2,5,10,10,10} and
equal `(3, 8, 10, 11)`, the levels are non-decreasing as counts
increase, and the day with count 10 is classified at level 3. -/
theorem c3_single_week_levels (c₁ c₂ : ℤ) (h1 : 0 ≤ c₁) (h12 : c₁ ≤ c₂) :
    (([0, 1, 2, 5, 10, 10, 10] : List ℤ).filter (fun c => 0 < c)).insertionSort (· ≤ ·) =
        [1, 2, 5, 10, 10, 10] ∧
      buildThresholds [0, 1, 2, 5, 10, 10, 10] = ⟨3, 8, 10, 11⟩ ∧
      levelFor (some c₁) (buildThresholds [0, 1, 2, 5, 10, 10, 10]) ≤
        levelFor (some c₂) (buildThresholds [0, 1, 2, 5, 10, 10, 10]) ∧
      levelFor (some 10) (buildThresholds [0, 1, 2, 5, 10, 10, 10]) = 3 := by
  refine ⟨by decide, c3_thresholds_eval, levelFor_mono _ c₁ c₂ h12, ?_⟩
  rw [c3_thresholds_eval]
  decide

/-- C3 witness: the amended statement applied at counts 2 and 7. -/
theorem c3_witness :
    (0 : ℤ) ≤ 2 ∧ (2 : ℤ) ≤ 7 ∧
      ((([0, 1, 2, 5, 10, 10, 10] : List ℤ).filter (fun c => 0 < c)).insertionSort (· ≤ ·) =
          [1, 2, 5, 10, 10, 10] ∧
        buildThresholds [0, 1, 2, 5, 10, 10, 10] = ⟨3, 8, 10, 11⟩ ∧
        levelFor (some 2) (buildThresholds [0, 1, 2, 5, 10, 10, 10]) ≤
          levelFor (some 7) (buildThresholds [0, 1, 2, 5, 10, 10, 10]) ∧
        levelFor (some 10) (buildThresholds [0, 1, 2, 5, 10, 10, 10]) = 3) :=
  ⟨by decide, by decide, c3_single_week_levels 2 7 (by decide) (by decide)⟩

/-! ## C4: thresholds always strictly increasing -/

/-- C4: for every input collection of daily counts, the four thresholds
satisfy `t0 < t1 < t2 < t3` (the fallback is increasing, and each
computed threshold is bumped past the previous one by the `max`). -/
theorem c4_thresholds_strictly_increasing (counts : List ℤ) :
    (buildThresholds counts).t0 < (buildThresholds counts).t1 ∧
      (buildThresholds counts).t1 < (buildThresholds counts).t2 ∧
        (buildThresholds counts).t2 < (buildThresholds counts).t3 := by
  simp only [buildThresholds]
  split
  · exact ⟨by norm_num, by norm_num, by norm_num⟩
  · exact ⟨lt_of_lt_of_le (lt_add_one _) (le_max_left _ _),
      lt_of_lt_of_le (lt_add_one _) (le_max_left _ _),
      lt_of_lt_of_le (lt_add_one _) (le_max_left _ _)⟩

/-! ## C5: the level classification -/

/-- C5: `levelFor` is total on non-negative counts, returns 0 exactly
when the count is 0, follows the guard cascade
(`count ≤ t0 → 1`, then `≤ t1 → 2`, then `≤ t2 → 3`, else `4`), and is
monotone non-decreasing in the count. -/
theorem c5_levelFor_spec (t : Thresholds) (c c₁ c₂ : ℤ)
    (hc : 0 ≤ c) (h1 : 0 ≤ c₁) (h12 : c₁ ≤ c₂) :
    levelFor (some 0) t = 0 ∧
      (levelFor (some c) t = 0 ↔ c = 0) ∧
      (0 < c → c ≤ t.t0 → levelFor (some c) t = 1) ∧
      (0 < c → ¬ c ≤ t.t0 → c ≤ t.t1 → levelFor (some c) t = 2) ∧
      (0 < c → ¬ c ≤ t.t0 → ¬ c ≤ t.t1 → c ≤ t.t2 → levelFor (some c) t = 3) ∧
      (0 < c → ¬ c ≤ t.t0 → ¬ c ≤ t.t1 → ¬ c ≤ t.t2 → levelFor (some c) t = 4) ∧
      levelFor (some c₁) t ≤ levelFor (some c₂) t := by
  refine ⟨?_, ⟨fun h => ?_, fun h => ?_⟩, ?_, ?_, ?_, ?_, levelFor_mono t c₁ c₂ h12⟩
  · simp [levelFor, jsLE]
  · simp only [levelFor, jsLE, decide_eq_true_eq] at h
    split_ifs at h <;> omega
  · subst h
    simp [levelFor, jsLE]
  · intro ha hb
    simp only [levelFor, jsLE, decide_eq_true_eq]
    split_ifs <;> omega
  · intro ha hb hc'
    simp only [levelFor, jsLE, decide_eq_true_eq]
    split_ifs <;> omega
  · intro ha hb hc' hd
    simp only [levelFor, jsLE, decide_eq_true_eq]
    split_ifs <;> omega
  · intro ha hb hc' hd
    simp only [levelFor, jsLE, decide_eq_true_eq]
    split_ifs <;> omega

/-- C5 witness: the specification instantiated at `t = (1,2,3,4)`,
`c = 2`, `c₁ = 1`, `c₂ = 9`. -/
theorem c5_witness :
    levelFor (some 0) (⟨1, 2, 3, 4⟩ : Thresholds) = 0 ∧
      (levelFor (some 2) (⟨1, 2, 3, 4⟩ : Thresholds) = 0 ↔ (2 : ℤ) = 0) ∧
      ((0 : ℤ) < 2 → (2 : ℤ) ≤ 1 →
        levelFor (some 2) (⟨1, 2, 3, 4⟩ : Thresholds) = 1) ∧
      ((0 : ℤ) < 2 → ¬ (2 : ℤ) ≤ 1 → (2 : ℤ) ≤ 2 →
        levelFor (some 2) (⟨1, 2, 3, 4⟩ : Thresholds) = 2) ∧
      ((0 : ℤ) < 2 → ¬ (2 : ℤ) ≤ 1 → ¬ (2 : ℤ) ≤ 2 → (2 : ℤ) ≤ 3 →
        levelFor (some 2) (⟨1, 2, 3, 4⟩ : Thresholds) = 3) ∧
      ((0 : ℤ) < 2 → ¬ (2 : ℤ) ≤ 1 → ¬ (2 : ℤ) ≤ 2 → ¬ (2 : ℤ) ≤ 3 →
        levelFor (some 2) (⟨1, 2, 3, 4⟩ : Thresholds) = 4) ∧
      levelFor (some 1) (⟨1, 2, 3, 4⟩ : Thresholds) ≤
        levelFor (some 9) (⟨1, 2, 3, 4⟩ : Thresholds) :=
  c5_levelFor_spec ⟨1, 2, 3, 4⟩ 2 1 9 (by decide) (by decide) (by decide)

/-! ## C7: a single distinct positive value -/

/-- C7: when exactly one distinct positive value `v` occurs among the
counts, every quantile of the non-zero list is `v`, so the bumping
degrades the thresholds to the consecutive integers `(v, v+1, v+2, v+3)`. -/
theorem c7_single_value_thresholds (counts : List ℤ) (v : ℤ) (hv : 0 < v)
    (hex : ∃ c ∈ counts, 0 < c) (hall : ∀ c ∈ counts, 0 < c → c = v) :
    buildThresholds counts = ⟨v, v + 1, v + 2, v + 3⟩ := by
  set nz := (counts.filter (fun c => 0 < c)).insertionSort (· ≤ ·) with hnz
  have hperm : nz.Perm (counts.filter (fun c => 0 < c)) :=
    List.perm_insertionSort _ _
  have hmem : ∀ x ∈ nz, x = v := by
    intro x hx
    have hx' : x ∈ counts.filter (fun c => 0 < c) := hperm.subset hx
    obtain ⟨hxc, hxpos⟩ := List.mem_filter.mp hx'
    exact hall x hxc (by simpa using hxpos)
  have hnzne : nz ≠ [] := by
    obtain ⟨c, hc, hcpos⟩ := hex
    have hcf : c ∈ counts.filter (fun c => 0 < c) :=
      List.mem_filter.mpr ⟨hc, by simpa⟩
    intro hnil
    rw [hnil] at hperm
    rw [hperm.symm.eq_nil] at hcf
    simp at hcf
  have hmapne : nz.map (fun (c : ℤ) => (c : ℚ)) ≠ [] := by
    simpa using hnzne
  have hmapall : ∀ x ∈ nz.map (fun (c : ℤ) => (c : ℚ)), x = (v : ℚ) := by
    intro x hx
    obtain ⟨y, hy, rfl⟩ := List.mem_map.mp hx
    rw [hmem y hy]
  have hq1 := quantile_const _ (v : ℚ) (1 / 4) hmapne hmapall (by norm_num) (by norm_num)
  have hq2 := quantile_const _ (v : ℚ) (1 / 2) hmapne hmapall (by norm_num) (by norm_num)
  have hq3 := quantile_const _ (v : ℚ) (3 / 4) hmapne hmapall (by norm_num) (by norm_num)
  have hq4 := quantile_const _ (v : ℚ) (9 / 10) hmapne hmapall (by norm_num) (by norm_num)
  have hlen0 : ¬ nz.length = 0 := by
    simpa [List.length_eq_zero] using hnzne
  simp only [buildThresholds, ← hnz]
  rw [if_neg hlen0, hq1, hq2, hq3, hq4, jsRound_intCast]
  have h1 : max 1 v = v := max_eq_right (by omega)
  rw [h1, max_eq_left (by omega), max_eq_left (by omega), max_eq_left (by omega)]
  simp only [Thresholds.mk.injEq, true_and]
  exact ⟨by ring, by ring⟩

/-- C7 witness: counts `[5, 5, 0]` with the single positive value 5
produce the thresholds `(5, 6, 7, 8)`. -/
theorem c7_witness :
    (0 : ℤ) < 5 ∧ (∃ c ∈ ([5, 5, 0] : List ℤ), 0 < c) ∧
      (∀ c ∈ ([5, 5, 0] : List ℤ), 0 < c → c = 5) ∧
      buildThresholds [5, 5, 0] = ⟨5, 6, 7, 8⟩ :=
  ⟨by decide, by decide, by decide,
    c7_single_value_thresholds [5, 5, 0] 5 (by decide) (by decide) (by decide)⟩

/-! ## C9: XML escaping -/

/-- `replaceAllChar` distributes over concatenation. -/
theorem replaceAllChar_append (c : Char) (r l₁ l₂ : List Char) :
    replaceAllChar c r (l₁ ++ l₂) = replaceAllChar c r l₁ ++ replaceAllChar c r l₂ := by
  simp [replaceAllChar]

/-- The five-pass escaping distributes over concatenation. -/
theorem escapeXml_append (l₁ l₂ : List Char) :
    escapeXml (l₁ ++ l₂) = escapeXml l₁ ++ escapeXml l₂ := by
  simp [escapeXml, replaceAllChar_append]

/-- On a single character the five sequential passes agree with the
independent per-character substitution: the `&`-pass runs first, so the
`&` introduced by a later entity is never re-escaped. -/
theorem escapeXml_single (c : Char) : escapeXml [c] = escCharSpec c := by
  by_cases h1 : c = Char.ofNat 38
  · subst h1; rfl
  by_cases h2 : c = Char.ofNat 60
  · subst h2; rfl
  by_cases h3 : c = Char.ofNat 62
  · subst h3; rfl
  by_cases h4 : c = Char.ofNat 34
  · subst h4; rfl
  by_cases h5 : c = Char.ofNat 39
  · subst h5; rfl
  simp [escapeXml, replaceAllChar, escCharSpec, h1, h2, h3, h4, h5]

/-- C9: for every string, the sequential `replaceAll` chain of
`escapeXml` equals the independent single-pass substitution that replaces
each of the five special characters exactly once and leaves every other
character unchanged. -/
theorem c9_escape_spec (s : List Char) : escapeXml s = escapeXmlSpec s := by
  induction s with
  | nil => rfl
  | cons c cs ih =>
    have hsplit : c :: cs = [c] ++ cs := rfl
    rw [hsplit, escapeXml_append, ih, escapeXml_single]
    simp [escapeXmlSpec]

/-! ## C6: the snake path -/

/-- The grid column of a trail point. -/
theorem mkTrailPoint_x (x y : ℕ) : (mkTrailPoint x y).x = x := rfl

/-- The grid row of a trail point. -/
theorem mkTrailPoint_y (x y : ℕ) : (mkTrailPoint x y).y = y := rfl

/-- Trail points are determined by their grid cell. -/
theorem mkTrailPoint_inj (a b c d : ℕ) :
    mkTrailPoint a b = mkTrailPoint c d ↔ a = c ∧ b = d := by
  constructor
  · intro h
    exact ⟨congrArg TrailPoint.x h, congrArg TrailPoint.y h⟩
  · rintro ⟨rfl, rfl⟩
    rfl

/-- Each column contributes exactly 7 points. -/
theorem snakeCol_length (x : ℕ) : (snakeCol x).length = 7 := by
  simp only [snakeCol, snakeYs]
  split <;> rfl

/-- Peeling the last column off the path. -/
theorem snakePoints_succ (W : ℕ) :
    snakePoints (W + 1) = snakePoints W ++ snakeCol W := by
  simp [snakePoints, List.range_succ]

/-- The path over `W` columns has `W * 7` points. -/
theorem snakePoints_length (W : ℕ) : (snakePoints W).length = W * 7 := by
  induction W with
  | zero => rfl
  | succ n ih =>
    rw [snakePoints_succ, List.length_append, ih, snakeCol_length]
    ring

/-- A column contains the point of cell `(c, r)` exactly once when
`c` is that column and `r` is a valid row, and never otherwise. -/
theorem snakeCol_count (x c r : ℕ) :
    (snakeCol x).count (mkTrailPoint c r) = if c = x ∧ r < 7 then 1 else 0 := by
  rcases Nat.mod_two_eq_zero_or_one x with hx | hx <;>
    simp [snakeCol, snakeYs, hx, List.count_cons, mkTrailPoint_inj] <;>
    split_ifs <;> omega

/-- Every cell of the `W × 7` grid is visited exactly once. -/
theorem snakePoints_count (W c r : ℕ) :
    (snakePoints W).count (mkTrailPoint c r) = if c < W ∧ r < 7 then 1 else 0 := by
  induction W with
  | zero => simp [snakePoints]
  | succ n ih =>
    rw [snakePoints_succ, List.count_append, ih, snakeCol_count]
    split_ifs <;> omega

/-- Within a column, consecutive points differ by exactly one row. -/
theorem snakeCol_chain (x : ℕ) : List.Chain' adjStep (snakeCol x) := by
  rcases Nat.mod_two_eq_zero_or_one x with hx | hx <;>
    simp [snakeCol, snakeYs, hx, List.chain'_cons, adjStep, mkTrailPoint_x,
      mkTrailPoint_y]

/-- The first point of a column: row 0 for even columns, row 6 for odd. -/
theorem snakeCol_head? (x : ℕ) :
    (snakeCol x).head? = some (mkTrailPoint x (if x % 2 = 0 then 0 else 6)) := by
  rcases Nat.mod_two_eq_zero_or_one x with hx | hx <;>
    simp [snakeCol, snakeYs, hx]

/-- The last point of a column: row 6 for even columns, row 0 for odd. -/
theorem snakeCol_getLast? (x : ℕ) :
    (snakeCol x).getLast? = some (mkTrailPoint x (if x % 2 = 0 then 6 else 0)) := by
  rcases Nat.mod_two_eq_zero_or_one x with hx | hx <;>
    simp [snakeCol, snakeYs, hx]

/-- A column is never empty. -/
theorem snakeCol_ne_nil (x : ℕ) : snakeCol x ≠ [] := by
  intro h
  have := snakeCol_length x
  rw [h] at this
  simp at this

/-- The last point of a non-empty path comes from the last column. -/
theorem snakePoints_getLast? (n : ℕ) :
    (snakePoints (n + 1)).getLast? =
      some (mkTrailPoint n (if n % 2 = 0 then 6 else 0)) := by
  rw [snakePoints_succ, List.getLast?_append, snakeCol_getLast?]
  rfl

/-- Consecutive points of the whole path differ by exactly one row or
one column: inside a column by `snakeCol_chain`, and at a column break
the alternating direction makes the two boundary points horizontal
neighbours in the same row. -/
theorem snakePoints_chain (W : ℕ) : List.Chain' adjStep (snakePoints W) := by
  induction W with
  | zero => simp [snakePoints]
  | succ n ih =>
    rw [snakePoints_succ]
    refine List.chain'_append.mpr ⟨ih, snakeCol_chain n, ?_⟩
    intro a ha b hb
    cases n with
    | zero => simp [snakePoints] at ha
    | succ m =>
      rw [snakePoints_getLast? m] at ha
      rw [snakeCol_head?] at hb
      simp only [Option.mem_def, Option.some_inj] at ha hb
      subst ha
      subst hb
      rcases Nat.mod_two_eq_zero_or_one m with hm | hm
      · have hm1 : (m + 1) % 2 = 1 := by omega
        rw [if_pos hm, if_neg (by omega)]
        right
        exact ⟨rfl, Or.inl rfl⟩
      · have hm1 : (m + 1) % 2 = 0 := by omega
        rw [if_neg (by omega), if_pos hm1]
        right
        exact ⟨rfl, Or.inl rfl⟩

/-- All points of a column sit in that column. -/
theorem snakeCol_x_eq (x : ℕ) : ∀ p ∈ snakeCol x, p.x = x := by
  intro p hp
  obtain ⟨y, hy, rfl⟩ := List.mem_map.mp hp
  rfl

/-- All path points lie in columns `0 .. W-1`. -/
theorem snakePoints_x_lt (W : ℕ) : ∀ p ∈ snakePoints W, p.x < W := by
  induction W with
  | zero => simp [snakePoints]
  | succ n ih =>
    intro p hp
    rw [snakePoints_succ, List.mem_append] at hp
    rcases hp with hp | hp
    · exact Nat.lt_succ_of_lt (ih p hp)
    · rw [snakeCol_x_eq n p hp]
      exact Nat.lt_succ_self n

/-- Filtering a column for its own index keeps everything. -/
theorem snakeCol_filter_self (x : ℕ) :
    (snakeCol x).filter (fun p => p.x == x) = snakeCol x :=
  List.filter_eq_self.mpr fun p hp => by simp [snakeCol_x_eq x p hp]

/-- Filtering a column for a different index keeps nothing. -/
theorem snakeCol_filter_ne (x x' : ℕ) (h : x ≠ x') :
    (snakeCol x).filter (fun p => p.x == x') = [] := by
  refine List.filter_eq_nil_iff.mpr fun p hp => ?_
  simp [snakeCol_x_eq x p hp, h]

/-- Filtering the path for a column at or past `W` keeps nothing. -/
theorem snakePoints_filter_ge (W x : ℕ) (h : W ≤ x) :
    (snakePoints W).filter (fun p => p.x == x) = [] := by
  refine List.filter_eq_nil_iff.mpr fun p hp => ?_
  have := snakePoints_x_lt W p hp
  simp only [beq_iff_eq]
  omega

/-- The path restricted to one of its columns is exactly that column,
in visiting order. -/
theorem snakePoints_filter (W x : ℕ) (h : x < W) :
    (snakePoints W).filter (fun p => p.x == x) = snakeCol x := by
  induction W with
  | zero => omega
  | succ n ih =>
    rw [snakePoints_succ, List.filter_append]
    rcases Nat.lt_succ_iff_lt_or_eq.mp h with h' | rfl
    · rw [ih h', snakeCol_filter_ne n x (by omega)]
      simp
    · rw [snakePoints_filter_ge x x (le_refl x), snakeCol_filter_self]
      simp

/-- The row order of a column is the source's literal `ys` array. -/
theorem snakeCol_map_y (x : ℕ) :
    (snakeCol x).map TrailPoint.y = snakeYs x := by
  simp [snakeCol, List.map_map, Function.comp_def, mkTrailPoint_y]

/-- A column's points all carry its column index. -/
theorem snakeCol_map_x (x : ℕ) :
    (snakeCol x).map TrailPoint.x = List.replicate 7 x := by
  rcases Nat.mod_two_eq_zero_or_one x with hx | hx <;>
    simp [snakeCol, snakeYs, hx, List.replicate, mkTrailPoint_x]

/-- The column indices along the path are non-decreasing: columns are
visited left to right. -/
theorem snakePoints_sorted_x (W : ℕ) :
    ((snakePoints W).map TrailPoint.x).Sorted (· ≤ ·) := by
  induction W with
  | zero => simp [snakePoints]
  | succ n ih =>
    rw [snakePoints_succ, List.map_append]
    refine List.pairwise_append.mpr ⟨ih, ?_, ?_⟩
    · rw [snakeCol_map_x]
      exact List.pairwise_replicate.mpr (Or.inr (le_refl n))
    · intro a ha b hb
      obtain ⟨p, hp, rfl⟩ := List.mem_map.mp ha
      rw [snakeCol_map_x] at hb
      have := snakePoints_x_lt n p hp
      have hb' := List.eq_of_mem_replicate hb
      omega

/-- C6: for every `W ≥ 1` the path has exactly `W * 7` points, visits
every cell of the grid exactly once, moves by exactly one row or one
column at each step (never a diagonal), visits columns left to right,
and traverses even columns top to bottom (rows 0..6) and odd columns
bottom to top (rows 6..0). -/
theorem c6_snake_path (W c r x : ℕ) (hW : 1 ≤ W) (hx : x < W) :
    (snakePoints W).length = W * 7 ∧
      (snakePoints W).count (mkTrailPoint c r) = (if c < W ∧ r < 7 then 1 else 0) ∧
      List.Chain' adjStep (snakePoints W) ∧
      ((snakePoints W).filter (fun p => p.x == x)).map TrailPoint.y =
        (if x % 2 = 0 then [0, 1, 2, 3, 4, 5, 6] else [6, 5, 4, 3, 2, 1, 0]) ∧
      ((snakePoints W).map TrailPoint.x).Sorted (· ≤ ·) :=
  ⟨snakePoints_length W, snakePoints_count W c r, snakePoints_chain W,
    by rw [snakePoints_filter W x hx, snakeCol_map_y]; rfl,
    snakePoints_sorted_x W⟩

/-- C6 witness: the path over 3 weeks has 21 points, visits cell (1,4)
once, steps only to adjacent cells, walks column 2 top to bottom, and
keeps columns in order. -/
theorem c6_witness :
    1 ≤ 3 ∧ 2 < 3 ∧
      ((snakePoints 3).length = 3 * 7 ∧
        (snakePoints 3).count (mkTrailPoint 1 4) = (if 1 < 3 ∧ 4 < 7 then 1 else 0) ∧
        List.Chain' adjStep (snakePoints 3) ∧
        ((snakePoints 3).filter (fun p => p.x == 2)).map TrailPoint.y =
          (if 2 % 2 = 0 then [0, 1, 2, 3, 4, 5, 6] else [6, 5, 4, 3, 2, 1, 0]) ∧
        ((snakePoints 3).map TrailPoint.x).Sorted (· ≤ ·)) :=
  ⟨by decide, by decide, c6_snake_path 3 1 4 2 (by decide) (by decide)⟩

/-! ## C8: missing day slots are tolerated -/

/-- C8: a column with a missing or short day list still renders exactly
7 cells, and every missing slot gets the level-0 placeholder fill. -/
theorem c8_missing_slots_tolerated (p : Palette) (t : Thresholds)
    (days : List (Option Day)) (y : ℕ) (hy : y < 7)
    (hmiss : days[y]? = none ∨ days[y]? = some none) :
    (columnFills p t days).length = 7 ∧
      (columnFills p t days)[y]? = some p.grid0 := by
  constructor
  · simp [columnFills]
  · rw [columnFills, List.getElem?_map, List.getElem?_range hy]
    rcases hmiss with h | h <;> simp [cellFill, h]

/-- C8 witness: a fully absent week still renders 7 placeholder cells;
slot 3 gets the `grid0` fill. -/
theorem c8_witness :
    (columnFills darkPalette ⟨1, 2, 3, 4⟩ []).length = 7 ∧
      (columnFills darkPalette ⟨1, 2, 3, 4⟩ [])[3]? = some darkPalette.grid0 :=
  c8_missing_slots_tolerated darkPalette ⟨1, 2, 3, 4⟩ [] 3 (by decide) (Or.inl rfl)

/-! ## C10: a present day with a non-numeric count -/

/-- C10: a day record whose `contributionCount` is not a number is
classified at level 4 (every guard of the cascade compares false), is
rendered with the maximal-intensity fill `grid4` rather than the level-0
placeholder, and contributes nothing to the counts used for threshold
computation. -/
theorem c10_nonnumeric_count_max_level (p : Palette) (t : Thresholds) (d : Day)
    (days : List (Option Day)) (y : ℕ)
    (hc : d.contributionCount = none) (hy : days[y]? = some (some d)) :
    levelFor d.contributionCount t = 4 ∧
      cellFill p t days y = p.grid4 ∧
      collectCounts [⟨[some d]⟩] = [] := by
  refine ⟨?_, ?_, ?_⟩
  · simp [hc, levelFor, jsLE]
  · simp [cellFill, hy, hc, levelFor, jsLE, fillRamp]
  · simp [collectCounts, hc]

/-- C10 witness: a concrete day with an absent count rendered at slot 0
of its week. -/
theorem c10_witness :
    levelFor (Day.mk [] none).contributionCount (⟨1, 2, 3, 4⟩ : Thresholds) = 4 ∧
      cellFill darkPalette ⟨1, 2, 3, 4⟩ [some (Day.mk [] none)] 0 = darkPalette.grid4 ∧
      collectCounts [⟨[some (Day.mk [] none)]⟩] = [] :=
  c10_nonnumeric_count_max_level darkPalette ⟨1, 2, 3, 4⟩ (Day.mk [] none)
    [some (Day.mk [] none)] 0 rfl rfl

end CampingCaravan
